import Mathlib

/-!
Verification of the color-matcher repository core: the binary database
codec (`convert_dulux_to_binary.py`, `test_binary_format.py`), the
nearest-color matcher, the dual-matrix calibration transform, and the
interactive tuning tools (`live_calibration_tool.py`,
`simple_calibration_tool.py`).

Python strings are modelled as `List Char`; byte buffers as `List Nat`
(each element a byte value); Python floats as exact rationals `ℚ`;
Python ints as `ℤ` or `ℕ` as appropriate.
-/

namespace ColorMatcher

/-! ## Byte-level primitives -/

/-- UTF-8 encoding of a single Unicode scalar value, as Python's
`str.encode` produces for one character. -/
def utf8Bytes (c : Char) : List Nat :=
  let n := c.toNat
  if n < 0x80 then [n]
  else if n < 0x800 then [0xC0 + n / 64, 0x80 + n % 64]
  else if n < 0x10000 then
    [0xE0 + n / 4096, 0x80 + (n / 64) % 64, 0x80 + n % 64]
  else
    [0xF0 + n / 262144, 0x80 + (n / 4096) % 64, 0x80 + (n / 64) % 64,
      0x80 + n % 64]

/-- `s.encode('utf-8')` for a whole string. -/
def utf8Encode (s : List Char) : List Nat := (s.map utf8Bytes).flatten

/-- `len(s.encode('utf-8'))`. -/
def utf8Len (s : List Char) : Nat := (utf8Encode s).length

/-- Decoding of one UTF-8 scalar value from the front of a byte sequence, as
Python's `bytes.decode('utf-8')` treats it: rejects stray continuation bytes,
overlong encodings, surrogates and out-of-range scalar values. -/
def utf8DecodeOne : List Nat → Option (Char × List Nat)
  | [] => none
  | b :: bs =>
    if b < 0x80 then some (Char.ofNat b, bs)
    else if b < 0xC2 then none
    else if b < 0xE0 then
      match bs with
      | b1 :: bs1 =>
        if 0x80 ≤ b1 ∧ b1 < 0xC0 then
          some (Char.ofNat ((b - 0xC0) * 64 + (b1 - 0x80)), bs1)
        else none
      | [] => none
    else if b < 0xF0 then
      match bs with
      | b1 :: b2 :: bs2 =>
        if 0x80 ≤ b1 ∧ b1 < 0xC0 ∧ 0x80 ≤ b2 ∧ b2 < 0xC0 then
          let n := (b - 0xE0) * 4096 + (b1 - 0x80) * 64 + (b2 - 0x80)
          if 0x800 ≤ n ∧ ¬(0xD800 ≤ n ∧ n ≤ 0xDFFF) then
            some (Char.ofNat n, bs2)
          else none
        else none
      | _ => none
    else if b < 0xF5 then
      match bs with
      | b1 :: b2 :: b3 :: bs3 =>
        if 0x80 ≤ b1 ∧ b1 < 0xC0 ∧ 0x80 ≤ b2 ∧ b2 < 0xC0 ∧ 0x80 ≤ b3 ∧ b3 < 0xC0 then
          let n := (b - 0xF0) * 262144 + (b1 - 0x80) * 4096 +
            (b2 - 0x80) * 64 + (b3 - 0x80)
          if 0x10000 ≤ n ∧ n < 0x110000 then
            some (Char.ofNat n, bs3)
          else none
        else none
      | _ => none
    else none

theorem utf8DecodeOne_length :
    ∀ {bs : List Nat} {c : Char} {rest : List Nat},
      utf8DecodeOne bs = some (c, rest) → rest.length < bs.length := by
  intro bs c rest h
  match bs with
  | [] => simp [utf8DecodeOne] at h
  | b :: bs' =>
    simp only [utf8DecodeOne] at h
    split_ifs at h with h1 h2 h3 h4 h5
    · simp only [Option.some.injEq, Prod.mk.injEq] at h
      simp only [← h.2, List.length_cons]
      omega
    · match bs' with
      | [] => simp at h
      | b1 :: bs1 =>
        simp only at h
        split_ifs at h
        simp only [Option.some.injEq, Prod.mk.injEq] at h
        simp only [← h.2, List.length_cons]
        omega
    · match bs' with
      | [] => simp at h
      | [b1] => simp at h
      | b1 :: b2 :: bs2 =>
        simp only at h
        split_ifs at h
        simp only [Option.some.injEq, Prod.mk.injEq] at h
        simp only [← h.2, List.length_cons]
        omega
    · match bs' with
      | [] => simp at h
      | [b1] => simp at h
      | [b1, b2] => simp at h
      | b1 :: b2 :: b3 :: bs3 =>
        simp only at h
        split_ifs at h
        simp only [Option.some.injEq, Prod.mk.injEq] at h
        simp only [← h.2, List.length_cons]
        omega

/-- Scalar-by-scalar UTF-8 decoding with a fuel argument (one unit per
byte) that makes the recursion structural; every scalar value consumes at
least one byte, so the buffer length is always enough fuel. -/
def utf8DecodeAux : Nat → List Nat → Option (List Char)
  | _, [] => some []
  | 0, _ :: _ => none
  | fuel + 1, b :: bs =>
    match utf8DecodeOne (b :: bs) with
    | none => none
    | some (c, rest) =>
      match utf8DecodeAux fuel rest with
      | some cs => some (c :: cs)
      | none => none

/-- UTF-8 decoding of a whole byte sequence, as Python's
`bytes.decode('utf-8')`. -/
def utf8Decode (bs : List Nat) : Option (List Char) :=
  utf8DecodeAux bs.length bs

theorem utf8DecodeAux_fuel :
    ∀ (f1 f2 : Nat) (bs : List Nat), bs.length ≤ f1 → bs.length ≤ f2 →
      utf8DecodeAux f1 bs = utf8DecodeAux f2 bs := by
  intro f1
  induction f1 with
  | zero =>
    intro f2 bs h1 h2
    match bs with
    | [] => cases f2 <;> rfl
  | succ f ih =>
    intro f2 bs h1 h2
    match bs, f2 with
    | [], f2 => cases f2 <;> rfl
    | b :: bs', 0 => simp at h2
    | b :: bs', f2' + 1 =>
      simp only [utf8DecodeAux]
      rcases hdec : utf8DecodeOne (b :: bs') with _ | ⟨c, rest⟩
      · rfl
      · have hlt := utf8DecodeOne_length hdec
        simp only [List.length_cons] at hlt h1 h2
        dsimp only
        rw [ih f2' rest (by omega) (by omega)]

theorem utf8Decode_eq (bs : List Nat) (hne : bs ≠ []) :
    utf8Decode bs =
      match utf8DecodeOne bs with
      | none => none
      | some (c, rest) =>
        match utf8Decode rest with
        | some cs => some (c :: cs)
        | none => none := by
  obtain ⟨b, bs', rfl⟩ := List.exists_cons_of_ne_nil hne
  unfold utf8Decode
  simp only [List.length_cons, utf8DecodeAux]
  rcases hdec : utf8DecodeOne (b :: bs') with _ | ⟨c, rest⟩
  · rfl
  · have hlt := utf8DecodeOne_length hdec
    simp only [List.length_cons] at hlt
    dsimp only
    rw [utf8DecodeAux_fuel bs'.length rest.length rest (by omega) le_rfl]

/-- `struct.pack('<H', n)` for `0 ≤ n < 2^16`. -/
def u16le (n : Nat) : List Nat := [n % 256, n / 256 % 256]

/-- `struct.pack('<I', n)` for `0 ≤ n < 2^32`. -/
def u32le (n : Nat) : List Nat :=
  [n % 256, n / 256 % 256, n / 65536 % 256, n / 16777216 % 256]

/-- Python's `int()` applied to an exact rational: truncation toward zero. -/
def pyInt (q : ℚ) : ℤ := q.num.tdiv q.den

/-! ## UTF-8 round-trip -/

theorem char_toNat_valid (c : Char) :
    c.toNat < 0xD800 ∨ (0xDFFF < c.toNat ∧ c.toNat < 0x110000) := by
  have h := c.valid
  unfold UInt32.isValidChar at h
  unfold Nat.isValidChar at h
  exact h

theorem utf8Bytes_ne_nil (c : Char) : utf8Bytes c ≠ [] := by
  unfold utf8Bytes
  dsimp only
  split_ifs <;> simp

theorem utf8DecodeOne_utf8Bytes (c : Char) (bs : List Nat) :
    utf8DecodeOne (utf8Bytes c ++ bs) = some (c, bs) := by
  have hvalid := char_toNat_valid c
  have hofNat : Char.ofNat c.toNat = c := Char.ofNat_toNat c
  unfold utf8Bytes
  by_cases h1 : c.toNat < 0x80
  · simp only [h1, if_pos, List.cons_append, List.nil_append]
    unfold utf8DecodeOne
    simp [h1, hofNat]
  · by_cases h2 : c.toNat < 0x800
    · simp only [h1, h2, if_neg, if_pos, List.cons_append, List.nil_append,
        not_false_eq_true]
      unfold utf8DecodeOne
      have hb : ¬(0xC0 + c.toNat / 64 < 0x80) := by omega
      have hb2 : ¬(0xC0 + c.toNat / 64 < 0xC2) := by omega
      have hb3 : 0xC0 + c.toNat / 64 < 0xE0 := by omega
      have hc : 0x80 ≤ 0x80 + c.toNat % 64 ∧ 0x80 + c.toNat % 64 < 0xC0 := by omega
      simp only [hb, hb2, hb3, hc, if_neg, if_pos, if_true, and_true,
        not_false_eq_true]
      have hq : c.toNat / 64 * 64 + c.toNat % 64 = c.toNat := by omega
      simp [hq, hofNat]
    · by_cases h3 : c.toNat < 0x10000
      · simp only [h1, h2, h3, if_neg, if_pos, List.cons_append, List.nil_append,
          not_false_eq_true]
        unfold utf8DecodeOne
        have hb : ¬(0xE0 + c.toNat / 4096 < 0x80) := by omega
        have hb2 : ¬(0xE0 + c.toNat / 4096 < 0xC2) := by omega
        have hb3 : ¬(0xE0 + c.toNat / 4096 < 0xE0) := by omega
        have hb4 : 0xE0 + c.toNat / 4096 < 0xF0 := by omega
        have hc1 : 0x80 ≤ 0x80 + c.toNat / 64 % 64 ∧ 0x80 + c.toNat / 64 % 64 < 0xC0 ∧
            0x80 ≤ 0x80 + c.toNat % 64 ∧ 0x80 + c.toNat % 64 < 0xC0 := by omega
        simp only [hb, hb2, hb3, hb4, hc1, if_neg, if_pos, if_true,
          not_false_eq_true]
        have hq : c.toNat / 4096 * 4096 + c.toNat / 64 % 64 * 64 + c.toNat % 64
            = c.toNat := by omega
        simp [hq, hofNat]
        all_goals omega
      · have h4 : c.toNat < 0x110000 := by omega
        simp only [h1, h2, h3, if_neg, List.cons_append, List.nil_append,
          not_false_eq_true]
        unfold utf8DecodeOne
        have hb : ¬(0xF0 + c.toNat / 262144 < 0x80) := by omega
        have hb2 : ¬(0xF0 + c.toNat / 262144 < 0xC2) := by omega
        have hb3 : ¬(0xF0 + c.toNat / 262144 < 0xE0) := by omega
        have hb4 : ¬(0xF0 + c.toNat / 262144 < 0xF0) := by omega
        have hb5 : 0xF0 + c.toNat / 262144 < 0xF5 := by omega
        have hc1 : 0x80 ≤ 0x80 + c.toNat / 4096 % 64 ∧
            0x80 + c.toNat / 4096 % 64 < 0xC0 ∧
            0x80 ≤ 0x80 + c.toNat / 64 % 64 ∧ 0x80 + c.toNat / 64 % 64 < 0xC0 ∧
            0x80 ≤ 0x80 + c.toNat % 64 ∧ 0x80 + c.toNat % 64 < 0xC0 := by omega
        simp only [hb, hb2, hb3, hb4, hb5, hc1, if_neg, if_pos, if_true,
          not_false_eq_true]
        have hq : c.toNat / 262144 * 262144 + c.toNat / 4096 % 64 * 4096 +
            c.toNat / 64 % 64 * 64 + c.toNat % 64 = c.toNat := by omega
        simp [hq, hofNat]
        all_goals omega

theorem utf8Decode_utf8Encode_append (s : List Char) (bs : List Nat) :
    utf8Decode (utf8Encode s ++ bs) =
      match utf8Decode bs with
      | some cs => some (s ++ cs)
      | none => none := by
  induction s with
  | nil =>
    simp only [utf8Encode, List.map_nil, List.flatten_nil, List.nil_append]
    rcases h : utf8Decode bs with _ | cs <;> simp [h]
  | cons c cs ih =>
    have henc : utf8Encode (c :: cs) = utf8Bytes c ++ utf8Encode cs := by
      simp [utf8Encode]
    rw [henc, List.append_assoc]
    have hne : utf8Bytes c ++ (utf8Encode cs ++ bs) ≠ [] := by
      simp [utf8Bytes_ne_nil c]
    rw [utf8Decode_eq _ hne, utf8DecodeOne_utf8Bytes]
    simp only [ih]
    rcases utf8Decode bs with _ | cs2 <;> simp

theorem utf8Decode_utf8Encode (s : List Char) :
    utf8Decode (utf8Encode s) = some s := by
  have h := utf8Decode_utf8Encode_append s []
  rw [List.append_nil] at h
  rw [h]
  simp [utf8Decode, utf8DecodeAux]

/-! ## Data model and binary codec

The canonical binary layout (spec section 4.1) is the variable-length,
length-prefixed format produced by `convert_dulux_to_binary.py`. -/

/-- One reference color entry, as read from the JSON source table.
`r`, `g`, `b` and `id` are Python ints, `lrv` the float parsed from the
JSON string, `name`/`code` Python strings. -/
structure ColorRecord where
  name : List Char
  code : List Char
  r : ℤ
  g : ℤ
  b : ℤ
  lrv : ℚ
  id : ℤ
  lightText : Bool
deriving DecidableEq

/-- The string truncation `convert_dulux_to_binary.py` applies to a name or
code whose UTF-8 encoding exceeds 255 bytes: keep the first 200 characters
(`name[:200]`), a character-level cut. -/
def truncPy (s : List Char) : List Char :=
  if 255 < utf8Len s then s.take 200 else s

/-- `int(lrv_float * 100)` from `convert_dulux_to_binary.py`. -/
def lrvScaledRaw (lrv : ℚ) : ℤ := pyInt (lrv * 100)

/-- The bytes one color entry contributes to the output file, paired with
whether a complete record was written.  Mirrors the per-color body of
`convert_dulux_to_binary`: out-of-range RGB prints a warning and skips the
record (`continue`, nothing written); `lrv_scaled` above 65535 is clamped;
overlong name/code are cut to 200 characters; a `struct.pack` failure
mid-record (negative `lrv_scaled`, out-of-range id, or a length prefix
above 255) raises, is caught, and skips to the next color, leaving the
bytes already written in the file. -/
def encodeEntry (c : ColorRecord) : List Nat × Bool :=
  let lrvS := lrvScaledRaw c.lrv
  if ¬(0 ≤ c.r ∧ c.r ≤ 255 ∧ 0 ≤ c.g ∧ c.g ≤ 255 ∧ 0 ≤ c.b ∧ c.b ≤ 255) then
    ([], false)
  else
    let lrvC := if 65535 < lrvS then 65535 else lrvS
    let nameB := utf8Encode (truncPy c.name)
    let codeB := utf8Encode (truncPy c.code)
    let rgbB := [c.r.toNat, c.g.toNat, c.b.toNat]
    if lrvC < 0 then (rgbB, false)
    else if ¬(0 ≤ c.id ∧ c.id < 4294967296) then (rgbB ++ u16le lrvC.toNat, false)
    else if 255 < nameB.length then
      (rgbB ++ u16le lrvC.toNat ++ u32le c.id.toNat, false)
    else if 255 < codeB.length then
      (rgbB ++ u16le lrvC.toNat ++ u32le c.id.toNat ++ nameB.length :: nameB, false)
    else
      (rgbB ++ u16le lrvC.toNat ++ u32le c.id.toNat ++ nameB.length :: nameB ++
        codeB.length :: codeB ++ [if c.lightText then 1 else 0], true)

/-- The 16-byte header: magic `"DULX"`, version 1, record count, reserved 0,
all uint32 little-endian. -/
def dbHeader (count : Nat) : List Nat :=
  [0x44, 0x55, 0x4C, 0x58] ++ u32le 1 ++ u32le count ++ u32le 0

/-- Whole-file encoding from `convert_dulux_to_binary.py`: header (with the
count taken from the input length before any per-record validation) followed
by each color entry in order. -/
def convert_dulux_to_binary (colors : List ColorRecord) : List Nat :=
  dbHeader colors.length ++ (colors.map fun c => (encodeEntry c).1).flatten

/-- Decoding of one color entry, following the per-record reads of
`test_binary_format.py`: rgb (3 bytes), `lrv_scaled` (uint16 LE, reported
as `lrv_scaled / 100`), id (uint32 LE), length-prefixed UTF-8 name and
code, light-text flag (nonzero byte means true).  Fails if the buffer runs
out or a string is not valid UTF-8. -/
def decodeEntry (bs : List Nat) : Option (ColorRecord × List Nat) :=
  match bs with
  | r :: g :: b :: l0 :: l1 :: i0 :: i1 :: i2 :: i3 :: nl :: rest =>
    if nl ≤ rest.length then
      match utf8Decode (rest.take nl) with
      | some name =>
        match rest.drop nl with
        | cl :: rest2 =>
          if cl ≤ rest2.length then
            match utf8Decode (rest2.take cl) with
            | some code =>
              match rest2.drop cl with
              | lt :: rest3 =>
                some ({ name := name, code := code,
                        r := (r : ℤ), g := (g : ℤ), b := (b : ℤ),
                        lrv := ((l0 + 256 * l1 : ℕ) : ℚ) / 100,
                        id := ((i0 + 256 * i1 + 65536 * i2 + 16777216 * i3 : ℕ) : ℤ),
                        lightText := lt != 0 }, rest3)
              | [] => none
            | none => none
          else none
        | [] => none
      | none => none
    else none
  | _ => none

/-- Sequential decoding of `n` consecutive records, the loop of
`test_binary_format.py` extended from its 3-record spot check to the
declared count; any record failure aborts, as the script returns `False`. -/
def decodeRecords : Nat → List Nat → Option (List ColorRecord)
  | 0, _ => some []
  | n + 1, bs =>
    match decodeEntry bs with
    | some (c, rest) =>
      match decodeRecords n rest with
      | some cs => some (c :: cs)
      | none => none
    | none => none

/-- Whole-file decoding following `test_binary_format.py`: 16-byte header
with magic `"DULX"` and version 1 validated (reserved read but not checked),
then the records.  The script-specific sanity check rejecting a zero count
and the 3-record display limit are test-harness details, not format rules. -/
def decodeDb (bs : List Nat) : Option (List ColorRecord) :=
  match bs with
  | m0 :: m1 :: m2 :: m3 :: v0 :: v1 :: v2 :: v3 ::
      c0 :: c1 :: c2 :: c3 :: _ :: _ :: _ :: _ :: rest =>
    if m0 = 0x44 ∧ m1 = 0x55 ∧ m2 = 0x4C ∧ m3 = 0x58 ∧
        v0 + 256 * v1 + 65536 * v2 + 16777216 * v3 = 1 then
      decodeRecords (c0 + 256 * c1 + 65536 * c2 + 16777216 * c3) rest
    else none
  | _ => none

/-! ## Codec round-trip -/

theorem pyInt_natCast (k : ℕ) : pyInt (k : ℚ) = (k : ℤ) := by
  unfold pyInt
  rw [Rat.num_natCast, Rat.den_natCast]
  simp [Int.tdiv]

theorem pyInt_eq_floor (q : ℚ) (h : 0 ≤ q) : pyInt q = ⌊q⌋ := by
  unfold pyInt
  rw [Rat.floor_def]
  exact Int.tdiv_eq_ediv (Rat.num_nonneg.mpr h) (Int.natCast_nonneg _)

theorem lrvScaledRaw_div100 (k : ℕ) : lrvScaledRaw ((k : ℚ) / 100) = (k : ℤ) := by
  unfold lrvScaledRaw
  rw [div_mul_cancel₀ _ (by norm_num : (100 : ℚ) ≠ 0)]
  exact pyInt_natCast k

/-- A record the encoder writes completely: in-range rgb and id, an `lrv`
that is a whole number of hundredths within the uint16 range, and name/code
that still fit a one-byte length prefix after the 200-character cut. -/
def WellFormedRecord (c : ColorRecord) : Prop :=
  (0 ≤ c.r ∧ c.r ≤ 255) ∧ (0 ≤ c.g ∧ c.g ≤ 255) ∧ (0 ≤ c.b ∧ c.b ≤ 255) ∧
  (∃ k : ℕ, k ≤ 65535 ∧ c.lrv = (k : ℚ) / 100) ∧
  (0 ≤ c.id ∧ c.id < 4294967296) ∧
  utf8Len (truncPy c.name) ≤ 255 ∧ utf8Len (truncPy c.code) ≤ 255

/-- The record the codec reproduces: the original with name and code put
through the encoder's truncation (the identity when they already fit). -/
def truncRecord (c : ColorRecord) : ColorRecord :=
  { c with name := truncPy c.name, code := truncPy c.code }

theorem encodeEntry_wf (c : ColorRecord) (k : ℕ) (hk : k ≤ 65535)
    (hr : 0 ≤ c.r ∧ c.r ≤ 255) (hg : 0 ≤ c.g ∧ c.g ≤ 255)
    (hb : 0 ≤ c.b ∧ c.b ≤ 255) (hlrv : c.lrv = (k : ℚ) / 100)
    (hid : 0 ≤ c.id ∧ c.id < 4294967296)
    (hname : (utf8Encode (truncPy c.name)).length ≤ 255)
    (hcode : (utf8Encode (truncPy c.code)).length ≤ 255) :
    encodeEntry c =
      ([c.r.toNat, c.g.toNat, c.b.toNat] ++ u16le k ++ u32le c.id.toNat ++
        (utf8Encode (truncPy c.name)).length :: utf8Encode (truncPy c.name) ++
        (utf8Encode (truncPy c.code)).length :: utf8Encode (truncPy c.code) ++
        [if c.lightText then 1 else 0], true) := by
  have hscaled : lrvScaledRaw c.lrv = (k : ℤ) := by
    rw [hlrv]; exact lrvScaledRaw_div100 k
  have hcond : 0 ≤ c.r ∧ c.r ≤ 255 ∧ 0 ≤ c.g ∧ c.g ≤ 255 ∧ 0 ≤ c.b ∧ c.b ≤ 255 :=
    ⟨hr.1, hr.2, hg.1, hg.2, hb.1, hb.2⟩
  have hclamp : ¬(65535 < (k : ℤ)) := by exact_mod_cast not_lt.mpr hk
  have hpos : ¬((k : ℤ) < 0) := not_lt.mpr (Int.natCast_nonneg k)
  have hnl : ¬(255 < (utf8Encode (truncPy c.name)).length) := not_lt.mpr hname
  have hcl : ¬(255 < (utf8Encode (truncPy c.code)).length) := not_lt.mpr hcode
  simp only [encodeEntry, hscaled, hclamp, if_false, not_not_intro hcond,
    not_not_intro hid, hpos, hnl, hcl, if_true, Int.toNat_natCast]

theorem decodeEntry_encodeEntry (c : ColorRecord) (bs : List Nat) (k : ℕ)
    (hk : k ≤ 65535)
    (hr : 0 ≤ c.r ∧ c.r ≤ 255) (hg : 0 ≤ c.g ∧ c.g ≤ 255)
    (hb : 0 ≤ c.b ∧ c.b ≤ 255) (hlrv : c.lrv = (k : ℚ) / 100)
    (hid : 0 ≤ c.id ∧ c.id < 4294967296)
    (hname : (utf8Encode (truncPy c.name)).length ≤ 255)
    (hcode : (utf8Encode (truncPy c.code)).length ≤ 255) :
    decodeEntry ((encodeEntry c).1 ++ bs) = some (truncRecord c, bs) := by
  rw [encodeEntry_wf c k hk hr hg hb hlrv hid hname hcode]
  simp only [u16le, u32le, List.cons_append, List.nil_append, List.append_assoc]
  rw [decodeEntry]
  have hidlt : c.id.toNat < 4294967296 := by omega
  have hknat : k % 256 + 256 * (k / 256 % 256) = k := by omega
  have hidnat : c.id.toNat % 256 + 256 * (c.id.toNat / 256 % 256) +
      65536 * (c.id.toNat / 65536 % 256) + 16777216 * (c.id.toNat / 16777216 % 256)
      = c.id.toNat := by omega
  rw [if_pos (by simp)]
  rw [List.take_left, utf8Decode_utf8Encode, List.drop_left]
  dsimp only
  rw [if_pos (by simp)]
  rw [List.take_left, utf8Decode_utf8Encode, List.drop_left]
  dsimp only
  simp only [Option.some.injEq, Prod.mk.injEq]
  refine ⟨?_, trivial⟩
  cases hlt : c.lightText <;>
    simp [truncRecord, hknat, hidnat, hlrv, hlt, Int.toNat_of_nonneg hr.1,
      Int.toNat_of_nonneg hg.1, Int.toNat_of_nonneg hb.1,
      Int.toNat_of_nonneg hid.1]

theorem decodeRecords_encodeList (colors : List ColorRecord) (tail : List Nat)
    (h : ∀ c ∈ colors, WellFormedRecord c) :
    decodeRecords colors.length
      ((colors.map fun c => (encodeEntry c).1).flatten ++ tail) =
      some (colors.map truncRecord) := by
  induction colors with
  | nil => simp [decodeRecords]
  | cons c cs ih =>
    obtain ⟨hr, hg, hb, ⟨k, hk, hlrv⟩, hid, hname, hcode⟩ :=
      h c (List.mem_cons_self c cs)
    simp only [List.map_cons, List.flatten_cons, List.length_cons,
      List.append_assoc]
    simp only [decodeRecords]
    rw [decodeEntry_encodeEntry c _ k hk hr hg hb hlrv hid hname hcode]
    dsimp only
    rw [ih (fun x hx => h x (List.mem_cons_of_mem c hx))]

theorem decodeDb_convert (colors : List ColorRecord)
    (hlen : colors.length < 4294967296)
    (h : ∀ c ∈ colors, WellFormedRecord c) :
    decodeDb (convert_dulux_to_binary colors) = some (colors.map truncRecord) := by
  unfold convert_dulux_to_binary dbHeader
  simp only [u32le, List.cons_append, List.nil_append]
  rw [decodeDb]
  rw [if_pos (by norm_num)]
  have hcount : colors.length % 256 + 256 * (colors.length / 256 % 256) +
      65536 * (colors.length / 65536 % 256) +
      16777216 * (colors.length / 16777216 % 256) = colors.length := by omega
  rw [hcount]
  have hrec := decodeRecords_encodeList colors [] h
  simpa using hrec

/-! ## Claim C1: codec round-trip -/

/-- Concrete well-formed record with a two-byte UTF-8 character in its name,
used to witness the round-trip. -/
def sampleRecord : ColorRecord :=
  { name := ['T', 'é'], code := ['A'], r := 10, g := 20, b := 30,
    lrv := 85/2, id := 77, lightText := true }

/-- Record whose lrv, 0.296, is not a whole number of hundredths. -/
def lrvFracRecord : ColorRecord :=
  { name := [], code := [], r := 1, g := 2, b := 3, lrv := 37/125, id := 5,
    lightText := false }

theorem lrvFrac_scaled : lrvScaledRaw lrvFracRecord.lrv = 29 := by
  unfold lrvScaledRaw lrvFracRecord
  have h0 : (0 : ℚ) ≤ 37/125 * 100 := by norm_num
  rw [pyInt_eq_floor _ h0]
  rw [Int.floor_eq_iff]
  norm_num

theorem encode_lrvFrac :
    encodeEntry lrvFracRecord = ([1, 2, 3, 29, 0, 5, 0, 0, 0, 0, 0, 0], true) := by
  unfold encodeEntry
  rw [lrvFrac_scaled]
  norm_num [lrvFracRecord, truncPy, utf8Len, utf8Encode, u16le, u32le]
  decide

/-- Claim C1 fails as stated: the encoder stores `int(lrv*100)` (truncation
toward zero), not `round(lrv*100)`, so the record with lrv = 0.296 (and no
overlong strings, hence no truncation in play) decodes with lrv 0.29 — a
field not reproduced exactly — while the claimed rounding would store 30. -/
theorem c1_roundtrip_counterexample :
    decodeDb (convert_dulux_to_binary [lrvFracRecord]) =
      some [{ lrvFracRecord with lrv := 29/100 }] ∧
    (29 : ℚ)/100 ≠ lrvFracRecord.lrv ∧
    lrvScaledRaw lrvFracRecord.lrv = 29 ∧
    round (lrvFracRecord.lrv * 100) = 30 := by
  refine ⟨?_, ?_, lrvFrac_scaled, ?_⟩
  · unfold convert_dulux_to_binary dbHeader
    simp only [List.map_cons, List.map_nil, List.flatten_cons, List.flatten_nil,
      encode_lrvFrac, List.append_nil, List.length_cons, List.length_nil]
    norm_num [decodeDb, decodeRecords, decodeEntry, utf8Decode, utf8DecodeAux,
      utf8DecodeOne, u32le, lrvFracRecord]
  · norm_num [lrvFracRecord]
  · unfold lrvFracRecord
    rw [round_eq]
    norm_num

/-- Claim C1 (amended): the round-trip law holds for every sequence of
records the encoder writes completely — rgb components in [0,255], id in
[0, 2^32), lrv a nonnegative whole number of hundredths at most 655.35, and
name/code that fit a one-byte length prefix after the encoder's
200-character truncation of overlong strings.  Decoding the encoded file
then reproduces every record with every field exact, name and code going
through that deterministic truncation (the identity when they already fit);
lrv is stored as `int(lrv*100)` (truncation toward zero, which agrees with
`round` exactly on whole hundredths) in a little-endian uint16 and decoded
as that value divided by 100. -/
theorem c1_roundtrip_amended (colors : List ColorRecord)
    (hlen : colors.length < 4294967296)
    (hwf : ∀ c ∈ colors, WellFormedRecord c) :
    decodeDb (convert_dulux_to_binary colors) =
      some (colors.map truncRecord) :=
  decodeDb_convert colors hlen hwf

theorem c1_roundtrip_witness :
    decodeDb (convert_dulux_to_binary [sampleRecord]) = some [sampleRecord] := by
  have h := c1_roundtrip_amended [sampleRecord] (by decide) ?_
  · have htr : truncRecord sampleRecord = sampleRecord := by
      have hn : truncPy sampleRecord.name = sampleRecord.name := by
        unfold truncPy
        rw [if_neg (by decide)]
      have hc : truncPy sampleRecord.code = sampleRecord.code := by
        unfold truncPy
        rw [if_neg (by decide)]
      simp [truncRecord, hn, hc]
    simpa [htr] using h
  · intro c hc
    simp only [List.mem_singleton] at hc
    subst hc
    refine ⟨by decide, by decide, by decide, ⟨4250, by decide, ?_⟩,
      by decide, by decide, by decide⟩
    norm_num [sampleRecord]

/-! ## Claims C6, C7, C10: encoder validation and truncation behavior -/

/-- The rgb range check of `convert_dulux_to_binary.py`. -/
def rgbValid (c : ColorRecord) : Prop :=
  0 ≤ c.r ∧ c.r ≤ 255 ∧ 0 ≤ c.g ∧ c.g ≤ 255 ∧ 0 ≤ c.b ∧ c.b ≤ 255

instance : DecidablePred rgbValid := fun c => by
  unfold rgbValid
  infer_instance

theorem encodeEntry_invalid (c : ColorRecord) (hc : ¬rgbValid c) :
    encodeEntry c = ([], false) := by
  have hc' : ¬(0 ≤ c.r ∧ c.r ≤ 255 ∧ 0 ≤ c.g ∧ c.g ≤ 255 ∧
      0 ≤ c.b ∧ c.b ≤ 255) := hc
  simp only [encodeEntry, if_pos hc']

/-- Record with an out-of-range red component. -/
def badRgbRecord : ColorRecord :=
  { name := [], code := [], r := 300, g := 0, b := 0, lrv := 0, id := 0,
    lightText := false }

/-- Claim C6 fails as stated: encoding a record with an rgb component
outside [0,255] does not fail with a ValidationError — the encoder warns,
skips the record (`continue`), and still produces a complete file whose
body simply omits it (here, a bare header). -/
theorem c6_encode_validation_counterexample :
    encodeEntry badRgbRecord = ([], false) ∧
    convert_dulux_to_binary [badRgbRecord] = dbHeader 1 :=
  ⟨by decide, by decide⟩

/-- Claim C6 (amended): encoding never fails on out-of-range rgb; such a
record is reported with a warning and omitted from the body (it contributes
no bytes), while the file — header counting it included — is still
produced. -/
theorem c6_encode_validation_amended (colors : List ColorRecord)
    (c : ColorRecord) (hc : ¬rgbValid c) :
    encodeEntry c = ([], false) ∧
    convert_dulux_to_binary colors =
      dbHeader colors.length ++
        (colors.map fun x => (encodeEntry x).1).flatten :=
  ⟨encodeEntry_invalid c hc, rfl⟩

theorem c6_encode_validation_witness :
    ¬rgbValid badRgbRecord ∧ encodeEntry badRgbRecord = ([], false) := by
  have h := c6_encode_validation_amended [badRgbRecord] badRgbRecord (by decide)
  exact ⟨by decide, h.1⟩

/-- 150 copies of a two-byte character: a 300-byte UTF-8 name. -/
def longName2B : List Char := List.replicate 150 'é'

/-- Record carrying the 300-byte multi-byte-heavy name. -/
def longNameRecord : ColorRecord :=
  { name := longName2B, code := [], r := 1, g := 1, b := 1, lrv := 0, id := 1,
    lightText := false }

set_option maxRecDepth 8192 in
/-- Claim C7 is what the code intends (its comment says the 200-character
cut leaves "room for UTF-8 encoding") but the code does not achieve it: the
300-byte name of 150 two-byte characters is left untouched by `name[:200]`
(150 ≤ 200 characters), still 300 > 255 encoded bytes, so the one-byte
length prefix cannot be packed and the record is aborted after its first
9 bytes instead of being truncated and round-tripped. -/
theorem c7_truncation_code_bug :
    utf8Len longNameRecord.name = 300 ∧
    truncPy longNameRecord.name = longNameRecord.name ∧
    255 < utf8Len (truncPy longNameRecord.name) ∧
    encodeEntry longNameRecord = ([1, 1, 1, 0, 0, 1, 0, 0, 0], false) := by
  refine ⟨by decide, by decide, by decide, ?_⟩
  have hls : lrvScaledRaw longNameRecord.lrv = 0 := by
    norm_num [longNameRecord, lrvScaledRaw, pyInt]
  unfold encodeEntry
  rw [hls]
  rw [if_neg (by decide), if_neg (by norm_num),
    if_neg (not_not_intro (by decide)), if_pos (by decide)]
  decide

/-- Claim C10: the header count field is the input length, fixed before any
per-record validation, while records failing the rgb check contribute no
bytes and no count adjustment happens — so whenever some record is invalid
the header count strictly exceeds the number of complete records in the
body. -/
theorem c10_header_count (colors : List ColorRecord)
    (hbad : ∃ c ∈ colors, ¬rgbValid c) :
    convert_dulux_to_binary colors =
      dbHeader colors.length ++
        (colors.map fun c => (encodeEntry c).1).flatten ∧
    (∀ c ∈ colors, ¬rgbValid c → encodeEntry c = ([], false)) ∧
    (colors.countP fun c => (encodeEntry c).2) < colors.length := by
  refine ⟨rfl, fun c _ hc => encodeEntry_invalid c hc, ?_⟩
  obtain ⟨c0, hc0mem, hc0⟩ := hbad
  have hle := List.countP_le_length (p := fun c => (encodeEntry c).2)
    (l := colors)
  have hne : (colors.countP fun c => (encodeEntry c).2) ≠ colors.length := by
    intro heq
    have hall := List.countP_eq_length.mp heq c0 hc0mem
    rw [encodeEntry_invalid c0 hc0] at hall
    simp at hall
  omega

theorem c10_header_count_witness :
    convert_dulux_to_binary [badRgbRecord] =
      dbHeader 1 ++ (([badRgbRecord].map fun c => (encodeEntry c).1).flatten) ∧
    ([badRgbRecord].countP fun c => (encodeEntry c).2) < 1 := by
  have h := c10_header_count [badRgbRecord] ⟨badRgbRecord, by decide, by decide⟩
  exact ⟨h.1, h.2.2⟩

/-! ## Claim C5: decode resilience -/

/-- Modelled from the spec: the device-side streaming `Decode` with
per-record resilience (spec section 4.1) is not in this repository — only
its offline test harness `test_binary_format.py` is, and that harness
aborts.  Per the spec, an individual record that fails to parse is skipped
with a warning and decoding continues with the next record; the records
region is therefore represented as a sequence of framed record buffers so
that "the next record" is well-defined.  A frame yields a record when
`decodeEntry` parses it consuming it exactly. -/
def parseFrame (bs : List Nat) : Option ColorRecord :=
  match decodeEntry bs with
  | some (c, []) => some c
  | _ => none

/-- Modelled from the spec: the resilient record stream — parse failures
are skipped, successes are yielded in order. -/
def decodeStream (frames : List (List Nat)) : List ColorRecord :=
  frames.filterMap parseFrame

/-- A corrupt record frame: well-formed fixed fields, then a name length
prefix of 200 with only two bytes of buffer remaining — the length prefix
points past the end of the buffer. -/
def overrunFrame : List Nat := [9, 9, 9, 0, 0, 1, 0, 0, 0, 200, 65, 65]

/-- A second plain well-formed record, distinct from `sampleRecord`. -/
def plainRecord : ColorRecord :=
  { name := ['B'], code := ['C'], r := 4, g := 5, b := 6, lrv := 0, id := 2,
    lightText := false }

theorem truncRecord_sampleRecord : truncRecord sampleRecord = sampleRecord := by
  have hn : truncPy sampleRecord.name = sampleRecord.name := by
    unfold truncPy
    rw [if_neg (by decide)]
  have hc : truncPy sampleRecord.code = sampleRecord.code := by
    unfold truncPy
    rw [if_neg (by decide)]
  simp [truncRecord, hn, hc]

theorem truncRecord_plainRecord : truncRecord plainRecord = plainRecord := by
  have hn : truncPy plainRecord.name = plainRecord.name := by
    unfold truncPy
    rw [if_neg (by decide)]
  have hc : truncPy plainRecord.code = plainRecord.code := by
    unfold truncPy
    rw [if_neg (by decide)]
  simp [truncRecord, hn, hc]

theorem parseFrame_sampleRecord :
    parseFrame (encodeEntry sampleRecord).1 = some sampleRecord := by
  unfold parseFrame
  have h := decodeEntry_encodeEntry sampleRecord [] 4250 (by decide) (by decide)
    (by decide) (by decide) (by norm_num [sampleRecord]) (by decide) (by decide)
    (by decide)
  rw [List.append_nil] at h
  rw [h, truncRecord_sampleRecord]

theorem parseFrame_plainRecord :
    parseFrame (encodeEntry plainRecord).1 = some plainRecord := by
  unfold parseFrame
  have h := decodeEntry_encodeEntry plainRecord [] 0 (by decide) (by decide)
    (by decide) (by decide) (by norm_num [plainRecord]) (by decide) (by decide)
    (by decide)
  rw [List.append_nil] at h
  rw [h, truncRecord_plainRecord]

/-- Claim C5: under the spec's resilient decoder a record frame that fails
to parse is dropped and decoding continues with the following frames; in
particular a 3-record buffer whose middle record has a length prefix
overrunning the buffer yields records 1 and 3. -/
theorem c5_decode_resilience (pre post : List (List Nat)) (bad : List Nat)
    (hbad : parseFrame bad = none) :
    decodeStream (pre ++ bad :: post) = decodeStream pre ++ decodeStream post ∧
    decodeStream [(encodeEntry sampleRecord).1, overrunFrame,
        (encodeEntry plainRecord).1] = [sampleRecord, plainRecord] := by
  constructor
  · simp [decodeStream, List.filterMap_append, List.filterMap_cons, hbad]
  · simp [decodeStream, List.filterMap_cons, parseFrame_sampleRecord,
      parseFrame_plainRecord, show parseFrame overrunFrame = none from by decide]

theorem c5_decode_resilience_witness :
    decodeStream [[(0 : Nat)]] = [] ∧
    decodeStream ([[(encodeEntry sampleRecord).1].flatten] ++ [0] ::
        [(encodeEntry plainRecord).1]) =
      decodeStream [[(encodeEntry sampleRecord).1].flatten] ++
        decodeStream [(encodeEntry plainRecord).1] := by
  have h := c5_decode_resilience [[(encodeEntry sampleRecord).1].flatten]
    [(encodeEntry plainRecord).1] [0] (by decide)
  exact ⟨by decide, h.1⟩

/-! ## Claim C2: nearest-color matcher -/

/-- The rgb triple of a record, as the matcher reads it. -/
def rgbOf (c : ColorRecord) : ℤ × ℤ × ℤ := (c.r, c.g, c.b)

/-- Squared Euclidean distance in RGB space (spec section 4.2): no square
root, only relative order matters. -/
def sqDist (q p : ℤ × ℤ × ℤ) : ℤ :=
  (q.1 - p.1) ^ 2 + (q.2.1 - p.2.1) ^ 2 + (q.2.2 - p.2.2) ^ 2

/-- Modelled from the spec: the single-pass running-best scan of
`FindBestMatch` (no matcher implementation exists in this repository; the
scripts only run a threshold search).  A strict comparison keeps the
earlier record on ties. -/
def fbmAux (q : ℤ × ℤ × ℤ) : ColorRecord × ℤ → List ColorRecord → ColorRecord × ℤ
  | best, [] => best
  | best, c :: rest =>
    fbmAux q
      (if sqDist q (rgbOf c) < best.2 then (c, sqDist q (rgbOf c)) else best) rest

/-- Modelled from the spec: `FindBestMatch(rgb, db)` — `none` models the
NotFoundError on an empty stream. -/
def findBestMatch (q : ℤ × ℤ × ℤ) : List ColorRecord → Option (ColorRecord × ℤ)
  | [] => none
  | c :: rest => some (fbmAux q (c, sqDist q (rgbOf c)) rest)

theorem fbmAux_spec (q : ℤ × ℤ × ℤ) :
    ∀ (l : List ColorRecord) (best : ColorRecord × ℤ),
      (fbmAux q best l = best ∧ ∀ x ∈ l, best.2 ≤ sqDist q (rgbOf x)) ∨
      (∃ pre r post, l = pre ++ r :: post ∧
        fbmAux q best l = (r, sqDist q (rgbOf r)) ∧
        sqDist q (rgbOf r) < best.2 ∧
        (∀ x ∈ pre, sqDist q (rgbOf r) < sqDist q (rgbOf x)) ∧
        (∀ x ∈ post, sqDist q (rgbOf r) ≤ sqDist q (rgbOf x))) := by
  intro l
  induction l with
  | nil => intro best; left; exact ⟨rfl, by simp⟩
  | cons c rest ih =>
    intro best
    by_cases hlt : sqDist q (rgbOf c) < best.2
    · have hstep : fbmAux q best (c :: rest) =
          fbmAux q (c, sqDist q (rgbOf c)) rest := by
        simp [fbmAux, hlt]
      rcases ih (c, sqDist q (rgbOf c)) with ⟨heq, hall⟩ | ⟨pre, r, post, hsplit, heqr, hr, hpre, hpost⟩
      · right
        refine ⟨[], c, rest, by simp, ?_, hlt, by simp, ?_⟩
        · rw [hstep, heq]
        · intro x hx
          exact hall x hx
      · right
        refine ⟨c :: pre, r, post, by simp [hsplit], ?_, ?_, ?_, hpost⟩
        · rw [hstep, heqr]
        · exact lt_trans hr hlt
        · intro x hx
          rcases List.mem_cons.mp hx with rfl | hx'
          · exact hr
          · exact hpre x hx'
    · have hstep : fbmAux q best (c :: rest) = fbmAux q best rest := by
        simp [fbmAux, hlt]
      rcases ih best with ⟨heq, hall⟩ | ⟨pre, r, post, hsplit, heqr, hr, hpre, hpost⟩
      · left
        refine ⟨by rw [hstep, heq], ?_⟩
        intro x hx
        rcases List.mem_cons.mp hx with rfl | hx'
        · exact not_lt.mp hlt
        · exact hall x hx'
      · right
        refine ⟨c :: pre, r, post, by simp [hsplit], by rw [hstep, heqr], hr, ?_, hpost⟩
        intro x hx
        rcases List.mem_cons.mp hx with rfl | hx'
        · exact lt_of_lt_of_le hr (not_lt.mp hlt)
        · exact hpre x hx'

/-- Claim C2: `FindBestMatch` returns a record minimizing squared Euclidean
distance in one pass; on ties the earliest record wins (every record placed
before the winner is strictly farther); an exact rgb match gives distance
0; and it returns nothing exactly when the database stream is empty
(NotFoundError). -/
theorem c2_find_best_match (q : ℤ × ℤ × ℤ) (db : List ColorRecord) :
    (findBestMatch q db = none ↔ db = []) ∧
    (∀ r d, findBestMatch q db = some (r, d) →
      d = sqDist q (rgbOf r) ∧
      (∀ x ∈ db, d ≤ sqDist q (rgbOf x)) ∧
      ∃ pre post, db = pre ++ r :: post ∧
        ∀ x ∈ pre, d < sqDist q (rgbOf x)) ∧
    (∀ x ∈ db, rgbOf x = q → ∀ r d, findBestMatch q db = some (r, d) → d = 0) := by
  have hmain : ∀ r d, findBestMatch q db = some (r, d) →
      d = sqDist q (rgbOf r) ∧
      (∀ x ∈ db, d ≤ sqDist q (rgbOf x)) ∧
      ∃ pre post, db = pre ++ r :: post ∧
        ∀ x ∈ pre, d < sqDist q (rgbOf x) := by
    intro r d hrd
    match db, hrd with
    | c :: rest, hrd =>
      simp only [findBestMatch, Option.some.injEq] at hrd
      rcases fbmAux_spec q rest (c, sqDist q (rgbOf c)) with
        ⟨heq, hall⟩ | ⟨pre, r2, post, hsplit, heqr, hr2, hpre, hpost⟩
      · rw [heq] at hrd
        obtain ⟨rfl, rfl⟩ : c = r ∧ sqDist q (rgbOf c) = d := by
          constructor
          · exact congrArg Prod.fst hrd
          · exact congrArg Prod.snd hrd
        refine ⟨rfl, ?_, [], rest, by simp, by simp⟩
        intro x hx
        rcases List.mem_cons.mp hx with rfl | hx'
        · exact le_refl _
        · exact hall x hx'
      · rw [heqr] at hrd
        obtain ⟨rfl, rfl⟩ : r2 = r ∧ sqDist q (rgbOf r2) = d := by
          constructor
          · exact congrArg Prod.fst hrd
          · exact congrArg Prod.snd hrd
        refine ⟨rfl, ?_, c :: pre, post, by simp [hsplit], ?_⟩
        · intro x hx
          rcases List.mem_cons.mp hx with rfl | hx'
          · exact le_of_lt hr2
          · rw [hsplit] at hx'
            rcases List.mem_append.mp hx' with hx2 | hx2
            · exact le_of_lt (hpre x hx2)
            · rcases List.mem_cons.mp hx2 with rfl | hx3
              · exact le_refl _
              · exact hpost x hx3
        · intro x hx
          rcases List.mem_cons.mp hx with rfl | hx'
          · exact hr2
          · exact hpre x hx'
  refine ⟨?_, hmain, ?_⟩
  · constructor
    · intro h
      match db, h with
      | [], _ => rfl
    · intro h
      subst h
      rfl
  · intro x hx hxq r d hrd
    have h := hmain r d hrd
    have hle := h.2.1 x hx
    have hx0 : sqDist q (rgbOf x) = 0 := by
      rw [hxq]
      simp [sqDist]
    have hd0 : d ≤ 0 := hx0 ▸ hle
    have hdnonneg : 0 ≤ d := by
      rw [h.1]
      unfold sqDist
      positivity
    omega

/-- Two records sharing the query rgb exactly, to exhibit the tie-break. -/
def tieRecA : ColorRecord :=
  { name := ['A'], code := [], r := 1, g := 2, b := 3, lrv := 0, id := 1,
    lightText := false }

/-- Same rgb as `tieRecA`, placed later. -/
def tieRecB : ColorRecord :=
  { name := ['B'], code := [], r := 1, g := 2, b := 3, lrv := 0, id := 2,
    lightText := false }

theorem c2_find_best_match_witness :
    findBestMatch (1, 2, 3) [tieRecA, tieRecB] = some (tieRecA, 0) ∧
    (∀ x ∈ [tieRecA, tieRecB], (0 : ℤ) ≤ sqDist (1, 2, 3) (rgbOf x)) ∧
    findBestMatch (1, 2, 3) ([] : List ColorRecord) = none := by
  have h := (c2_find_best_match (1, 2, 3) [tieRecA, tieRecB]).2.1 tieRecA 0 rfl
  exact ⟨rfl, h.2.1, rfl⟩

/-! ## Calibration: matrix selection, transform, tuning, apply -/

/-- The two calibration matrices, `brightMatrix0..8` / `darkMatrix0..8`. -/
inductive MatrixKind
  | bright
  | dark
deriving DecidableEq

/-- Modelled from the spec: CalibrationState (spec section 3) — both
matrices, the brightness threshold compared against Y, the two mode flags
and the IR compensation coefficients.  On the device this state lives
behind the `/api/calibration` and `/api/settings` endpoints that the tools
read and write. -/
structure CalibrationState where
  coeffs : MatrixKind → Fin 9 → ℚ
  threshold : ℚ
  useMatrixCalibration : Bool
  enableDynamicCalibration : Bool
  ir1Comp : ℚ
  ir2Comp : ℚ

/-- The transform mode: the fixed linear scaling fallback, or one of the
two matrices. -/
inductive TransformMode
  | fixedScaling
  | matrix (k : MatrixKind)
deriving DecidableEq

/-- From `display_status` in `live_calibration_tool.py` (and
`show_current_reading` in `simple_calibration_tool.py`): the matrix in use
as reported from the Y reading, `bright` iff `y > 8000`. -/
def display_status_matrix (y : ℚ) : MatrixKind :=
  if y > 8000 then .bright else .dark

/-- Modelled from the spec: matrix selection (spec section 4.3 step 2); the
Transform Engine itself is device firmware outside this repository, and the
tools mirror its `Y > threshold` comparison at the default threshold
8000. -/
def selectMode (st : CalibrationState) (y : ℚ) : TransformMode :=
  if st.useMatrixCalibration = false then .fixedScaling
  else if st.enableDynamicCalibration then
    (if y > st.threshold then .matrix .bright else .matrix .dark)
  else .matrix .bright

/-- Claim C3: with `useMatrixCalibration = true` and
`enableDynamicCalibration = true`, the bright matrix is selected exactly
when `Y > threshold` and the dark matrix otherwise; at threshold 8000 the
boundary Y = 8000 selects dark and Y = 8001 selects bright; with
`enableDynamicCalibration = false` the bright matrix is always used; and
the dynamic rule at threshold 8000 agrees with the matrix the tools
display. -/
theorem c3_matrix_selection (coeffs : MatrixKind → Fin 9 → ℚ)
    (t y i1 i2 : ℚ) :
    (selectMode ⟨coeffs, t, true, true, i1, i2⟩ y = .matrix .bright ↔ t < y) ∧
    (selectMode ⟨coeffs, t, true, true, i1, i2⟩ y = .matrix .dark ↔ ¬t < y) ∧
    selectMode ⟨coeffs, t, true, false, i1, i2⟩ y = .matrix .bright ∧
    selectMode ⟨coeffs, 8000, true, true, i1, i2⟩ 8000 = .matrix .dark ∧
    selectMode ⟨coeffs, 8000, true, true, i1, i2⟩ 8001 = .matrix .bright ∧
    (∀ y2, selectMode ⟨coeffs, 8000, true, true, i1, i2⟩ y2 =
      .matrix (display_status_matrix y2)) := by
  refine ⟨?_, ?_, by simp [selectMode], ?_, ?_, ?_⟩
  · unfold selectMode
    simp only [Bool.true_eq_false, if_false, if_true]
    by_cases h : t < y <;> simp [gt_iff_lt, h]
  · unfold selectMode
    simp only [Bool.true_eq_false, if_false, if_true]
    by_cases h : t < y <;> simp [gt_iff_lt, h]
  · norm_num [selectMode]
  · norm_num [selectMode]
  · intro y2
    unfold selectMode display_status_matrix
    by_cases h : y2 > 8000 <;> simp [h]

/-- A raw sensor sample: tristimulus counts and the two IR channels. -/
structure SensorSample where
  x : ℚ
  y : ℚ
  z : ℚ
  ir1 : ℚ
  ir2 : ℚ

/-- Modelled from the spec: IR compensation (spec section 4.3 step 1),
`X' = X - ir1Comp*IR1`, `Y' = Y`, `Z' = Z - ir2Comp*IR2`. -/
def irCompensate (st : CalibrationState) (s : SensorSample) : ℚ × ℚ × ℚ :=
  (s.x - st.ir1Comp * s.ir1, s.y, s.z - st.ir2Comp * s.ir2)

/-- Row-major 3×3 matrix application (spec section 4.3 step 3, before
rounding and clamping). -/
def matApply (m : Fin 9 → ℚ) (v : ℚ × ℚ × ℚ) : ℚ × ℚ × ℚ :=
  (m 0 * v.1 + m 1 * v.2.1 + m 2 * v.2.2,
   m 3 * v.1 + m 4 * v.2.1 + m 5 * v.2.2,
   m 6 * v.1 + m 7 * v.2.1 + m 8 * v.2.2)

/-- `clamp(round(value), 0, 255)`. -/
def clamp255 (n : ℤ) : ℤ := max 0 (min 255 n)

/-- Modelled from the spec: the Transform Engine on the matrix path (spec
section 4.3), written with the compensation arithmetic inlined exactly
where the spec places it — inside each matrix-row product; the fixed
scaling fallback uses device-specific gain constants not recorded in the
spec and is left out of scope (`none`). -/
def transformEngine (st : CalibrationState) (s : SensorSample) :
    Option ((ℤ × ℤ × ℤ) × MatrixKind) :=
  match selectMode st s.y with
  | .fixedScaling => none
  | .matrix k =>
    let m := st.coeffs k
    some ((clamp255 (round (m 0 * (s.x - st.ir1Comp * s.ir1) + m 1 * s.y +
              m 2 * (s.z - st.ir2Comp * s.ir2))),
           clamp255 (round (m 3 * (s.x - st.ir1Comp * s.ir1) + m 4 * s.y +
              m 5 * (s.z - st.ir2Comp * s.ir2))),
           clamp255 (round (m 6 * (s.x - st.ir1Comp * s.ir1) + m 7 * s.y +
              m 8 * (s.z - st.ir2Comp * s.ir2)))), k)

/-- Claim C9: the matrix multiply receives the IR-compensated vector — the
engine factors as `matApply` after `irCompensate`, Y untouched — and with
X = 5000, IR1 = 100, ir1Comp = 0.30 the compensated X input is 4970. -/
theorem c9_ir_compensation (st : CalibrationState) (s : SensorSample)
    (k : MatrixKind) (hk : selectMode st s.y = .matrix k) :
    transformEngine st s =
      some ((clamp255 (round (matApply (st.coeffs k) (irCompensate st s)).1),
             clamp255 (round (matApply (st.coeffs k) (irCompensate st s)).2.1),
             clamp255 (round (matApply (st.coeffs k) (irCompensate st s)).2.2)),
            k) ∧
    (irCompensate st s).2.1 = s.y ∧
    ∀ i2c : ℚ,
      (irCompensate ⟨st.coeffs, st.threshold, st.useMatrixCalibration,
          st.enableDynamicCalibration, 3/10, i2c⟩
        ⟨5000, s.y, s.z, 100, s.ir2⟩).1 = 4970 := by
  refine ⟨?_, rfl, ?_⟩
  · unfold transformEngine
    rw [hk]
    rfl
  · intro i2c
    unfold irCompensate
    norm_num


/-- All-ones bright/dark matrices with the default threshold and
ir1Comp = 0.30. -/
def onesState : CalibrationState := ⟨fun _ _ => 1, 8000, true, true, 3/10, 0⟩

/-- The sample of the spec's IR-compensation test vector, bright side. -/
def c9Sample : SensorSample := ⟨5000, 9000, 0, 100, 0⟩

theorem c9_ir_compensation_witness :
    transformEngine onesState c9Sample =
      some ((clamp255 (round (matApply (onesState.coeffs .bright)
          (irCompensate onesState c9Sample)).1),
        clamp255 (round (matApply (onesState.coeffs .bright)
          (irCompensate onesState c9Sample)).2.1),
        clamp255 (round (matApply (onesState.coeffs .bright)
          (irCompensate onesState c9Sample)).2.2)), .bright) ∧
    (irCompensate onesState c9Sample).1 = 4970 := by
  have h := c9_ir_compensation onesState c9Sample .bright
    (by norm_num [selectMode, onesState, c9Sample])
  refine ⟨h.1, ?_⟩
  unfold irCompensate onesState c9Sample
  norm_num

/-! ## Claims C8 and C4: tuning proposals and the apply step -/

/-- `calculate_error` from `live_calibration_tool.py`: signed per-channel
error observed − target, plus the total absolute error. -/
def calculate_error (current target : ℤ × ℤ × ℤ) : ℤ × ℤ × ℤ × ℤ :=
  (current.1 - target.1, current.2.1 - target.2.1, current.2.2 - target.2.2,
    |current.1 - target.1| + |current.2.1 - target.2.1| +
      |current.2.2 - target.2.2|)

/-- `suggest_adjustments` from `live_calibration_tool.py`: for each channel
with absolute error above 2, one suggestion on the diagonal coefficient
(index 0 for R, 4 for G, 8 for B) of the matrix currently in use, with
step ∓0.001 opposite to the error sign (the descriptive string of each
suggestion is omitted). -/
def suggest_adjustments (current target : ℤ × ℤ × ℤ) (matrixType : MatrixKind) :
    List (MatrixKind × Fin 9 × ℚ) :=
  let e := calculate_error current target
  let adjustment_factor : ℚ := 1/1000
  (if 2 < |e.1| then
      [(matrixType, (0 : Fin 9),
        if 0 < e.1 then -adjustment_factor else adjustment_factor)]
    else []) ++
  (if 2 < |e.2.1| then
      [(matrixType, (4 : Fin 9),
        if 0 < e.2.1 then -adjustment_factor else adjustment_factor)]
    else []) ++
  (if 2 < |e.2.2.1| then
      [(matrixType, (8 : Fin 9),
        if 0 < e.2.2.1 then -adjustment_factor else adjustment_factor)]
    else [])

/-- Claim C8: a delta is proposed for a channel iff its signed error
err = observed − target has |err| > 2; the proposal targets the diagonal
coefficient (0/4/8) of the currently selected matrix and equals
−sign(err) × 0.001 — plus the spec's concrete example: target
(168,160,147), observed (175,160,147) under the dark matrix proposes
exactly darkMatrix0 −= 0.001. -/
theorem c8_tuning_proposals (current target : ℤ × ℤ × ℤ) (mt : MatrixKind) :
    suggest_adjustments current target mt =
      (if 2 < |current.1 - target.1| then
          [(mt, (0 : Fin 9), -((current.1 - target.1).sign : ℚ) * (1/1000))]
        else []) ++
      (if 2 < |current.2.1 - target.2.1| then
          [(mt, (4 : Fin 9), -((current.2.1 - target.2.1).sign : ℚ) * (1/1000))]
        else []) ++
      (if 2 < |current.2.2 - target.2.2| then
          [(mt, (8 : Fin 9), -((current.2.2 - target.2.2).sign : ℚ) * (1/1000))]
        else []) ∧
    suggest_adjustments (175, 160, 147) (168, 160, 147) .dark =
      [(.dark, 0, -(1/1000))] := by
  have hch : ∀ (i : Fin 9) (e : ℤ),
      (if 2 < |e| then
          [(mt, i, if 0 < e then -((1 : ℚ)/1000) else (1 : ℚ)/1000)]
        else []) =
        (if 2 < |e| then [(mt, i, -(e.sign : ℚ) * (1/1000))] else []) := by
    intro i e
    by_cases he : 2 < |e|
    · rw [if_pos he, if_pos he]
      have : (if 0 < e then -((1 : ℚ)/1000) else (1 : ℚ)/1000) =
          -(e.sign : ℚ) * (1/1000) := by
        by_cases hpos : 0 < e
        · rw [if_pos hpos, Int.sign_eq_one_of_pos hpos]
          norm_num
        · have hneg : e < 0 := by
            rcases lt_trichotomy e 0 with h | h | h
            · exact h
            · subst h
              simp at he
            · exact absurd h hpos
          rw [if_neg hpos, Int.sign_eq_neg_one_of_neg hneg]
          norm_num
      rw [this]
    · rw [if_neg he, if_neg he]
  constructor
  · simp only [suggest_adjustments, calculate_error]
    rw [hch, hch, hch]
  · norm_num [suggest_adjustments, calculate_error]

/-- `update_matrix` from `live_calibration_tool.py` and
`simple_calibration_tool.py`: posting `{matrix}{index}=value` sets that one
coefficient. -/
def update_matrix (coeffs : MatrixKind → Fin 9 → ℚ) (m : MatrixKind)
    (i : Fin 9) (value : ℚ) : MatrixKind → Fin 9 → ℚ :=
  fun m2 i2 => if m2 = m ∧ i2 = i then value else coeffs m2 i2

/-- The apply branch of `interactive_calibration`: for a suggestion, read
the current coefficient, add the adjustment, and post the new value —
unconditionally. -/
def applySuggestion (coeffs : MatrixKind → Fin 9 → ℚ)
    (sug : MatrixKind × Fin 9 × ℚ) : MatrixKind → Fin 9 → ℚ :=
  update_matrix coeffs sug.1 sug.2.1 (coeffs sug.1 sug.2.1 + sug.2.2)

/-- Applying a whole suggestion list in order. -/
def applySuggestions (coeffs : MatrixKind → Fin 9 → ℚ)
    (sugs : List (MatrixKind × Fin 9 × ℚ)) : MatrixKind → Fin 9 → ℚ :=
  sugs.foldl applySuggestion coeffs

/-- Calibration matrices sitting at 0.9997 everywhere. -/
def nearLimitCoeffs : MatrixKind → Fin 9 → ℚ := fun _ _ => 9997/10000

/-- Claim C4 fails as stated: applying a confirmed +0.001 suggestion to a
coefficient at 0.9997 writes 1.0007 — beyond the claimed |new| ≤ 1 bound —
instead of rejecting it with a SafetyClampError and leaving the state
unchanged; the tool has no clamp at all. -/
theorem c4_safety_clamp_counterexample :
    applySuggestion nearLimitCoeffs (.dark, 0, 1/1000) .dark 0 = 10007/10000 ∧
    1 < |(10007 : ℚ)/10000| ∧
    applySuggestion nearLimitCoeffs (.dark, 0, 1/1000) .dark 0 ≠
      nearLimitCoeffs .dark 0 := by
  refine ⟨by norm_num [applySuggestion, update_matrix, nearLimitCoeffs], ?_,
    by norm_num [applySuggestion, update_matrix, nearLimitCoeffs]⟩
  rw [abs_of_pos (by norm_num)]
  norm_num

/-- Claim C4 (amended): the apply step enforces no safety bound: each
confirmed suggestion writes current + delta into the targeted coefficient
unconditionally — also when |current + delta| exceeds 1 — and leaves every
other coefficient unchanged; no SafetyClampError path exists in the
tool. -/
theorem c4_safety_clamp_amended (coeffs : MatrixKind → Fin 9 → ℚ)
    (m : MatrixKind) (i : Fin 9) (d : ℚ) :
    applySuggestion coeffs (m, i, d) m i = coeffs m i + d ∧
    ∀ m2 i2, ¬(m2 = m ∧ i2 = i) →
      applySuggestion coeffs (m, i, d) m2 i2 = coeffs m2 i2 := by
  constructor
  · simp [applySuggestion, update_matrix]
  · intro m2 i2 h
    simp [applySuggestion, update_matrix, h]

theorem c4_safety_clamp_witness :
    applySuggestion nearLimitCoeffs (.dark, 0, 1/1000) .dark 0 =
      nearLimitCoeffs .dark 0 + 1/1000 ∧
    applySuggestion nearLimitCoeffs (.dark, 0, 1/1000) .bright 0 =
      nearLimitCoeffs .bright 0 := by
  have h := c4_safety_clamp_amended nearLimitCoeffs .dark 0 (1/1000)
  exact ⟨h.1, h.2 .bright 0 (by simp)⟩

end ColorMatcher
